import Mathlib

/-!
# Context-scoped log fields (`github.com/jybp/log`, file `fields.go`)

A shallow embedding of the package and a verification of its field-propagation
behaviour.

Go maps are reference objects, so the embedding keeps every map in an explicit
heap (`World.heap`) and passes map *references* around, exactly as the Go code
does: `CtxWithField` writes through the reference it finds in the context.
A `context.Context` is the usual immutable chain of `WithValue` wrappers.

The logging backend (logrus) and the `fmt` package are external to the
repository; the parts the package calls are modelled after their documented
contract and marked as such.
-/

namespace Log

/-! ## Values -/

/-- A Go `error` created by `errors.New(description)`. -/
structure GoError where
  description : String
deriving DecidableEq

/-- The dynamic values (`interface{}`) used as field values and log arguments. -/
inductive Value where
  | str (s : String)
  | int (i : Int)
  | error (err : GoError)
deriving DecidableEq

/-- Whether the dynamic type of the value is `string`. -/
def Value.isString : Value → Bool
  | .str _ => true
  | _ => false

/-- The name `fmt` prints for the dynamic type of a value. -/
def Value.typeName : Value → String
  | .str _ => "string"
  | .int _ => "int"
  | .error _ => "*errors.errorString"

/-! ## `Fields`: the contents of a Go `map[string]interface{}` -/

/-- The contents of a map of type `Fields` (`type Fields map[string]interface{}`),
as a list of key/value entries. `get` and `assign` are the only ways the contents
are observed and changed, and `assign` never introduces a second entry for a key. -/
structure Fields where
  entries : List (String × Value)

/-- The contents of `make(Fields)`, and what reading a nil map yields. -/
def Fields.empty : Fields := ⟨[]⟩

/-- Lookup in an entry list. -/
def lookupEntry (k : String) : List (String × Value) → Option Value
  | [] => none
  | e :: rest => if e.1 = k then some e.2 else lookupEntry k rest

/-- Overwrite-or-insert in an entry list. -/
def assignEntry (k : String) (v : Value) : List (String × Value) → List (String × Value)
  | [] => [(k, v)]
  | e :: rest => if e.1 = k then (k, v) :: rest else e :: assignEntry k v rest

/-- Map read `m[k]` (with presence). -/
def Fields.get (m : Fields) (k : String) : Option Value := lookupEntry k m.entries

/-- Map write `m[k] = v`, on the contents. -/
def Fields.assign (m : Fields) (k : String) (v : Value) : Fields := ⟨assignEntry k v m.entries⟩

/-- The keys a `range` over the map visits. -/
def Fields.keys (m : Fields) : List String := m.entries.map Prod.fst

/-! ## The `fmt` package (external): `Sprint` and `Sprintf`

Only the fragment needed for log messages is modelled: the verbs `%v`, `%d`, `%s`
and the escape `%%`, without flags, width or precision, on strings, ints and
errors made by `errors.New`. -/

namespace fmt

/-- The marker `fmt` prints for a verb that does not fit the operand. -/
def badVerb (verb : Char) (typ val : String) : String :=
  "%!" ++ verb.toString ++ "(" ++ typ ++ "=" ++ val ++ ")"

/-- Formatting of one operand under one verb. -/
def formatValue (verb : Char) : Value → String
  | .str s => if verb = 'v' ∨ verb = 's' then s else badVerb verb "string" s
  | .int i => if verb = 'v' ∨ verb = 'd' then toString i else badVerb verb "int" (toString i)
  | .error e =>
    if verb = 'v' ∨ verb = 's' then e.description
    else "&\x7b" ++ badVerb verb "string" e.description ++ "\x7d"

/-- The `%!(EXTRA ...)` report for operands the format did not consume. -/
def extra (args : List Value) : String :=
  "%!(EXTRA " ++ ", ".intercalate (args.map fun a => a.typeName ++ "=" ++ formatValue 'v' a) ++ ")"

/-- Expansion of a format (as characters) against the remaining operands. -/
def expand : List Char → List Value → String
  | [], [] => ""
  | [], a :: args => extra (a :: args)
  | c :: rest, args =>
    if c = '%' then
      match rest, args with
      | [], args => "%!(NOVERB)" ++ (match args with | [] => "" | a :: as => extra (a :: as))
      | verb :: rest', [] =>
        if verb = '%' then "%" ++ expand rest' []
        else "%!" ++ verb.toString ++ "(MISSING)" ++ expand rest' []
      | verb :: rest', a :: args' =>
        if verb = '%' then "%" ++ expand rest' (a :: args')
        else formatValue verb a ++ expand rest' args'
    else c.toString ++ expand rest args

/-- Go `fmt.Sprintf(format, args...)`. -/
def Sprintf (format : String) (args : List Value) : String := expand format.toList args

/-- Go `fmt.Sprint(args...)`: operands in their default format, with a space between
two operands when neither is a string. -/
def Sprint : List Value → String
  | [] => ""
  | [a] => formatValue 'v' a
  | a :: b :: rest =>
    formatValue 'v' a ++ (if !a.isString && !b.isString then " " else "") ++ Sprint (b :: rest)

end fmt

/-! ## The world: map heap and log output -/

/-- Severity of a record. -/
inductive Level where
  | debug | info | warning | error | fatal
deriving DecidableEq

/-- One record handed to the output: level, rendered message, and the field set
the entry carried at the moment of emission. -/
structure Record where
  level : Level
  msg : String
  fields : Fields

/-- Program state: the heap of map objects (`heap a` is the contents of the map at
address `a`, `next` the first address not yet allocated), the records written so
far, and whether the process has exited. -/
structure World where
  heap : Nat → Fields
  next : Nat
  out : List Record
  exited : Bool

/-- The state at program start: nothing allocated, nothing written. -/
def World.init : World := ⟨fun _ => Fields.empty, 0, [], false⟩

/-- Go `make(Fields)`: a fresh, empty map; returns its address. -/
def World.make (w : World) : Nat × World :=
  (w.next,
   { w with heap := fun a => if a = w.next then Fields.empty else w.heap a, next := w.next + 1 })

/-- Contents of the map behind a reference; a nil map (`none`) reads as empty. -/
def World.load (w : World) : Option Nat → Fields
  | none => Fields.empty
  | some a => w.heap a

/-- Go `m[k] = v` for the map at address `m`: an in-place write, visible through
every reference to that map. -/
def World.mapassign (w : World) (m : Nat) (k : String) (v : Value) : World :=
  { w with heap := fun a => if a = m then (w.heap m).assign k v else w.heap a }

/-- Go `for k, v := range src { dst[k] = v }`: every key of `src` is visited and
written into the map at `dst` with the value `src` holds for it. Ranging over a nil
map visits nothing. -/
def World.rangeAssign (w : World) (dst : Nat) (src : Option Nat) : World :=
  let snapshot := w.load src
  snapshot.keys.foldl
    (fun w k => match snapshot.get k with
      | some v => w.mapassign dst k v
      | none => w)
    w

/-- A composite literal `Fields{k1: v1, ...}`: a fresh map holding the entries. -/
def World.literal (w : World) (kvs : List (String × Value)) : Nat × World :=
  let r := w.make
  (r.1, kvs.foldl (fun w kv => w.mapassign r.1 kv.1 kv.2) r.2)

/-! ## `context.Context` -/

/-- Context keys: the package-private `fieldsCtxKey` (of the unexported type
`ctxKey`), and the keys other packages store their own values under. -/
inductive Key where
  | fieldsCtxKey
  | foreign (id : Nat)
deriving DecidableEq

/-- An `interface{}` value stored in a context, with its dynamic type: a map of the
package's own type `Fields`, a map of the distinct type `logrus.Fields`, some other
value, or nil. The two map types share their underlying type but are different
named types, so a type assertion to one does not accept the other. A stored map is
a reference to a made map: the key is private to the package, and the package only
ever stores maps it obtained from `make` or found in the context. -/
inductive Any where
  | nil
  | logFields (ref : Nat)
  | logrusFields (ref : Nat)
  | other (v : Value)

/-- Go `context.Context`: `context.Background()` and `context.WithValue`. -/
inductive Context where
  | Background
  | WithValue (parent : Context) (key : Key) (val : Any)

/-- Go `ctx.Value(key)`: the value of the nearest wrapper with that key, nil if none. -/
def Context.Value : Context → Key → Any
  | .Background, _ => Any.nil
  | .WithValue parent key val, k => if k = key then val else parent.Value k

/-- The type assertion `x.(Fields)` in its two-result form `fields, ok := ...`:
`some ref` is `(ref, true)`, `none` is `(nil, false)`. -/
def Any.assertFields : Any → Option Nat
  | .logFields ref => some ref
  | _ => none

/-- The type assertion `x.(logrus.Fields)` in its two-result form. -/
def Any.assertLogrusFields : Any → Option Nat
  | .logrusFields ref => some ref
  | _ => none

/-! ## The logrus backend (external)

`logrus.Entry` carries its fields in the map `Data`. Attaching fields builds a new
entry around a freshly made map; emitting hands level, message and the entry's
field set to the output. Formatting, sinks and level thresholds are backend
configuration and not part of the model. -/

namespace logrus

/-- The reserved key logrus uses for errors (`logrus.ErrorKey`). -/
def ErrorKey : String := "error"

/-- A `*logrus.Entry`; `Data` is the address of its field map. -/
structure Entry where
  Data : Nat

/-- Modelled from the spec: the backend's `newEntry` (logrus is not under src/):
an entry of the standard logger with an empty base mapping. -/
def newEntry (w : World) : Entry × World :=
  let r := w.make
  (⟨r.1⟩, r.2)

/-- Modelled from the spec: the backend's field-attachment primitive
`Entry.WithFields` (logrus is not under src/): a new handle whose field set is
`merge(handle.fields, newFields)`, built in a fresh map: first the receiver's
entries are copied, then the new ones are written over them. -/
def Entry.WithFields (entry : Entry) (fields : Option Nat) (w : World) : Entry × World :=
  let r := w.make
  let data := r.1
  let w := r.2
  let w := w.rangeAssign data (some entry.Data)
  let w := w.rangeAssign data fields
  (⟨data⟩, w)

/-- Modelled from the spec: the backend's `Entry.WithField`, which is
`WithFields(Fields{key: value})`. -/
def Entry.WithField (entry : Entry) (key : String) (value : Value) (w : World) : Entry × World :=
  let r := w.literal [(key, value)]
  entry.WithFields (some r.1) r.2

/-- Modelled from the spec: package-level `logrus.WithFields` on the standard logger. -/
def WithFields (fields : Option Nat) (w : World) : Entry × World :=
  let r := newEntry w
  r.1.WithFields fields r.2

/-- Modelled from the spec: package-level `logrus.WithField` on the standard logger. -/
def WithField (key : String) (value : Value) (w : World) : Entry × World :=
  let r := newEntry w
  r.1.WithField key value r.2

/-- Modelled from the spec: the backend contract `emit(level, message, fields)`:
one record with the entry's current field set is written. -/
def Entry.log (entry : Entry) (level : Level) (msg : String) (w : World) : World :=
  { w with out := w.out ++ [⟨level, msg, w.heap entry.Data⟩] }

/-- Modelled from the spec: `Entry.Debug`, message by `fmt.Sprint`. -/
def Entry.Debug (entry : Entry) (args : List Value) (w : World) : World :=
  entry.log Level.debug (fmt.Sprint args) w

/-- Modelled from the spec: `Entry.Info`, message by `fmt.Sprint`. -/
def Entry.Info (entry : Entry) (args : List Value) (w : World) : World :=
  entry.log Level.info (fmt.Sprint args) w

/-- Modelled from the spec: `Entry.Warn`, message by `fmt.Sprint`. -/
def Entry.Warn (entry : Entry) (args : List Value) (w : World) : World :=
  entry.log Level.warning (fmt.Sprint args) w

/-- Modelled from the spec: `Entry.Error`, message by `fmt.Sprint`. -/
def Entry.Error (entry : Entry) (args : List Value) (w : World) : World :=
  entry.log Level.error (fmt.Sprint args) w

/-- Modelled from the spec: `Entry.Fatal`: the record is written, then the process
exits. -/
def Entry.Fatal (entry : Entry) (args : List Value) (w : World) : World :=
  { entry.log Level.fatal (fmt.Sprint args) w with exited := true }

/-- Modelled from the spec: `Entry.Debugf`, message by `fmt.Sprintf`. -/
def Entry.Debugf (entry : Entry) (format : String) (args : List Value) (w : World) : World :=
  entry.log Level.debug (fmt.Sprintf format args) w

/-- Modelled from the spec: `Entry.Infof`, message by `fmt.Sprintf`. -/
def Entry.Infof (entry : Entry) (format : String) (args : List Value) (w : World) : World :=
  entry.log Level.info (fmt.Sprintf format args) w

/-- Modelled from the spec: `Entry.Warnf`, message by `fmt.Sprintf`. -/
def Entry.Warnf (entry : Entry) (format : String) (args : List Value) (w : World) : World :=
  entry.log Level.warning (fmt.Sprintf format args) w

/-- Modelled from the spec: `Entry.Errorf`, message by `fmt.Sprintf`. -/
def Entry.Errorf (entry : Entry) (format : String) (args : List Value) (w : World) : World :=
  entry.log Level.error (fmt.Sprintf format args) w

/-- Modelled from the spec: `Entry.Fatalf`: the record is written, then the process
exits. -/
def Entry.Fatalf (entry : Entry) (format : String) (args : List Value) (w : World) : World :=
  { entry.log Level.fatal (fmt.Sprintf format args) w with exited := true }

end logrus

/-! ## The package `log` (src/fields.go) -/

/-- The expression `ctx.Value(fieldsCtxKey).(Fields)` every context-aware function
starts with: the reference to the map attached to the context, nil (`none`) when
the assertion fails. -/
def ctxFields (ctx : Context) : Option Nat := (ctx.Value Key.fieldsCtxKey).assertFields

/-- The mapping read from a context (the spec's `readFields`): the contents of the
map `ctx.Value(fieldsCtxKey).(Fields)` refers to, empty if there is none. -/
def readFields (ctx : Context) (w : World) : Fields := w.load (ctxFields ctx)

/-! ### Context-aware functions (lines 51-99) -/

/-- Source `func DebugC(ctx context.Context, args ...interface{})`. -/
def DebugC (ctx : Context) (args : List Value) (w : World) : World :=
  let fields := (ctx.Value Key.fieldsCtxKey).assertFields
  let r := logrus.WithFields fields w
  r.1.Debug args r.2

/-- Source `func InfoC(ctx context.Context, args ...interface{})`. -/
def InfoC (ctx : Context) (args : List Value) (w : World) : World :=
  let fields := (ctx.Value Key.fieldsCtxKey).assertFields
  let r := logrus.WithFields fields w
  r.1.Info args r.2

/-- Source `func WarnC(ctx context.Context, args ...interface{})`. -/
def WarnC (ctx : Context) (args : List Value) (w : World) : World :=
  let fields := (ctx.Value Key.fieldsCtxKey).assertFields
  let r := logrus.WithFields fields w
  r.1.Warn args r.2

/-- Source `func ErrorC(ctx context.Context, args ...interface{})`. -/
def ErrorC (ctx : Context) (args : List Value) (w : World) : World :=
  let fields := (ctx.Value Key.fieldsCtxKey).assertFields
  let r := logrus.WithFields fields w
  r.1.Error args r.2

/-- Source `func FatalC(ctx context.Context, args ...interface{})`. -/
def FatalC (ctx : Context) (args : List Value) (w : World) : World :=
  let fields := (ctx.Value Key.fieldsCtxKey).assertFields
  let r := logrus.WithFields fields w
  r.1.Fatal args r.2

/-- Source `func DebugfC(ctx context.Context, format string, args ...interface{})`. -/
def DebugfC (ctx : Context) (format : String) (args : List Value) (w : World) : World :=
  let fields := (ctx.Value Key.fieldsCtxKey).assertFields
  let r := logrus.WithFields fields w
  r.1.Debugf format args r.2

/-- Source `func InfofC(ctx context.Context, format string, args ...interface{})`. -/
def InfofC (ctx : Context) (format : String) (args : List Value) (w : World) : World :=
  let fields := (ctx.Value Key.fieldsCtxKey).assertFields
  let r := logrus.WithFields fields w
  r.1.Infof format args r.2

/-- Source `func WarnfC(ctx context.Context, format string, args ...interface{})`. -/
def WarnfC (ctx : Context) (format : String) (args : List Value) (w : World) : World :=
  let fields := (ctx.Value Key.fieldsCtxKey).assertFields
  let r := logrus.WithFields fields w
  r.1.Warnf format args r.2

/-- Source `func ErrorfC(ctx context.Context, format string, args ...interface{})`. -/
def ErrorfC (ctx : Context) (format : String) (args : List Value) (w : World) : World :=
  let fields := (ctx.Value Key.fieldsCtxKey).assertFields
  let r := logrus.WithFields fields w
  r.1.Errorf format args r.2

/-- Source `func FatalfC(ctx context.Context, format string, args ...interface{})`. -/
def FatalfC (ctx : Context) (format : String) (args : List Value) (w : World) : World :=
  let fields := (ctx.Value Key.fieldsCtxKey).assertFields
  let r := logrus.WithFields fields w
  r.1.Fatalf format args r.2

/-! ### The handle `entryCtx` (lines 101-165) -/

/-- Source `type entryCtx struct { *logrus.Entry }`, the only implementation of the
interface `Logger`. -/
structure entryCtx where
  Entry : logrus.Entry

/-- Source `func (e entryCtx) WithField(k string, v interface{}) Logger`. -/
def entryCtx.WithField (e : entryCtx) (k : String) (v : Value) (w : World) : entryCtx × World :=
  let r := e.Entry.WithField k v w
  (⟨r.1⟩, r.2)

/-- Source `func (e entryCtx) WithFields(fields Fields) Logger`. -/
def entryCtx.WithFields (e : entryCtx) (fields : Option Nat) (w : World) : entryCtx × World :=
  let r := e.Entry.WithFields fields w
  (⟨r.1⟩, r.2)

/-- Source `func (e entryCtx) WithError(err error) Logger`. -/
def entryCtx.WithError (e : entryCtx) (err : GoError) (w : World) : entryCtx × World :=
  e.WithField logrus.ErrorKey (Value.error err) w

/-- Source `func (e entryCtx) DebugC(ctx context.Context, args ...interface{})`. -/
def entryCtx.DebugC (e : entryCtx) (ctx : Context) (args : List Value) (w : World) : World :=
  let fields := (ctx.Value Key.fieldsCtxKey).assertFields
  let r := e.Entry.WithFields fields w
  r.1.Debug args r.2

/-- Source `func (e entryCtx) InfoC(ctx context.Context, args ...interface{})`. -/
def entryCtx.InfoC (e : entryCtx) (ctx : Context) (args : List Value) (w : World) : World :=
  let fields := (ctx.Value Key.fieldsCtxKey).assertFields
  let r := e.Entry.WithFields fields w
  r.1.Info args r.2

/-- Source `func (e entryCtx) WarnC(ctx context.Context, args ...interface{})`. -/
def entryCtx.WarnC (e : entryCtx) (ctx : Context) (args : List Value) (w : World) : World :=
  let fields := (ctx.Value Key.fieldsCtxKey).assertFields
  let r := e.Entry.WithFields fields w
  r.1.Warn args r.2

/-- Source `func (e entryCtx) ErrorC(ctx context.Context, args ...interface{})`. -/
def entryCtx.ErrorC (e : entryCtx) (ctx : Context) (args : List Value) (w : World) : World :=
  let fields := (ctx.Value Key.fieldsCtxKey).assertFields
  let r := e.Entry.WithFields fields w
  r.1.Error args r.2

/-- Source `func (e entryCtx) FatalC(ctx context.Context, args ...interface{})`. -/
def entryCtx.FatalC (e : entryCtx) (ctx : Context) (args : List Value) (w : World) : World :=
  let fields := (ctx.Value Key.fieldsCtxKey).assertFields
  let r := e.Entry.WithFields fields w
  r.1.Fatal args r.2

/-- Source `func (e entryCtx) DebugfC(ctx context.Context, format string, args ...interface{})`. -/
def entryCtx.DebugfC (e : entryCtx) (ctx : Context) (format : String) (args : List Value)
    (w : World) : World :=
  let fields := (ctx.Value Key.fieldsCtxKey).assertFields
  let r := e.Entry.WithFields fields w
  r.1.Debugf format args r.2

/-- Source `func (e entryCtx) InfofC(ctx context.Context, format string, args ...interface{})`. -/
def entryCtx.InfofC (e : entryCtx) (ctx : Context) (format : String) (args : List Value)
    (w : World) : World :=
  let fields := (ctx.Value Key.fieldsCtxKey).assertFields
  let r := e.Entry.WithFields fields w
  r.1.Infof format args r.2

/-- Source `func (e entryCtx) WarnfC(ctx context.Context, format string, args ...interface{})`. -/
def entryCtx.WarnfC (e : entryCtx) (ctx : Context) (format : String) (args : List Value)
    (w : World) : World :=
  let fields := (ctx.Value Key.fieldsCtxKey).assertFields
  let r := e.Entry.WithFields fields w
  r.1.Warnf format args r.2

/-- Source `func (e entryCtx) ErrorfC(ctx context.Context, format string, args ...interface{})`. -/
def entryCtx.ErrorfC (e : entryCtx) (ctx : Context) (format : String) (args : List Value)
    (w : World) : World :=
  let fields := (ctx.Value Key.fieldsCtxKey).assertFields
  let r := e.Entry.WithFields fields w
  r.1.Errorf format args r.2

/-- Source `func (e entryCtx) FatalfC(ctx context.Context, format string, args ...interface{})`. -/
def entryCtx.FatalfC (e : entryCtx) (ctx : Context) (format : String) (args : List Value)
    (w : World) : World :=
  let fields := (ctx.Value Key.fieldsCtxKey).assertFields
  let r := e.Entry.WithFields fields w
  r.1.Fatalf format args r.2

/-! ### Methods promoted from the embedded `*logrus.Entry` -/

/-- The method `Debug` of `Logger`, promoted from the embedded entry. -/
def entryCtx.Debug (e : entryCtx) (args : List Value) (w : World) : World :=
  e.Entry.Debug args w

/-- The method `Info` of `Logger`, promoted from the embedded entry. -/
def entryCtx.Info (e : entryCtx) (args : List Value) (w : World) : World :=
  e.Entry.Info args w

/-- The method `Warn` of `Logger`, promoted from the embedded entry. -/
def entryCtx.Warn (e : entryCtx) (args : List Value) (w : World) : World :=
  e.Entry.Warn args w

/-- The method `Error` of `Logger`, promoted from the embedded entry. -/
def entryCtx.Error (e : entryCtx) (args : List Value) (w : World) : World :=
  e.Entry.Error args w

/-- The method `Fatal` of `Logger`, promoted from the embedded entry. -/
def entryCtx.Fatal (e : entryCtx) (args : List Value) (w : World) : World :=
  e.Entry.Fatal args w

/-- The method `Debugf` of `Logger`, promoted from the embedded entry. -/
def entryCtx.Debugf (e : entryCtx) (format : String) (args : List Value) (w : World) : World :=
  e.Entry.Debugf format args w

/-- The method `Infof` of `Logger`, promoted from the embedded entry. -/
def entryCtx.Infof (e : entryCtx) (format : String) (args : List Value) (w : World) : World :=
  e.Entry.Infof format args w

/-- The method `Warnf` of `Logger`, promoted from the embedded entry. -/
def entryCtx.Warnf (e : entryCtx) (format : String) (args : List Value) (w : World) : World :=
  e.Entry.Warnf format args w

/-- The method `Errorf` of `Logger`, promoted from the embedded entry. -/
def entryCtx.Errorf (e : entryCtx) (format : String) (args : List Value) (w : World) : World :=
  e.Entry.Errorf format args w

/-- The method `Fatalf` of `Logger`, promoted from the embedded entry. -/
def entryCtx.Fatalf (e : entryCtx) (format : String) (args : List Value) (w : World) : World :=
  e.Entry.Fatalf format args w

/-! ### Handle constructors (lines 213-223) -/

/-- Source `func WithField(k string, v interface{}) Logger`. -/
def WithField (k : String) (v : Value) (w : World) : entryCtx × World :=
  let r := logrus.WithField k v w
  (⟨r.1⟩, r.2)

/-- Source `func WithFields(fields Fields) Logger`. -/
def WithFields (fields : Option Nat) (w : World) : entryCtx × World :=
  let r := logrus.WithFields fields w
  (⟨r.1⟩, r.2)

/-- Source `func WithError(err error) Logger`. -/
def WithError (err : GoError) (w : World) : entryCtx × World :=
  WithField logrus.ErrorKey (Value.error err) w

/-! ### Context-aware log fields (lines 225-253) -/

/-- Source `func CtxWithField(ctx context.Context, k string, v interface{}) context.Context`:
the map found in the context is written in place; a map is made only when the
context has none. -/
def CtxWithField (ctx : Context) (k : String) (v : Value) (w : World) : Context × World :=
  let r := match (ctx.Value Key.fieldsCtxKey).assertFields with
    | some fields => (fields, w)
    | none => w.make
  let fields := r.1
  let w := r.2.mapassign fields k v
  (Context.WithValue ctx Key.fieldsCtxKey (Any.logFields fields), w)

/-- Source `func CtxWithFields(ctx context.Context, fields Fields) context.Context`. -/
def CtxWithFields (ctx : Context) (fields : Option Nat) (w : World) : Context × World :=
  let r := match (ctx.Value Key.fieldsCtxKey).assertFields with
    | some existing => (existing, w)
    | none => w.make
  let existing := r.1
  let w := r.2.rangeAssign existing fields
  (Context.WithValue ctx Key.fieldsCtxKey (Any.logFields existing), w)

/-- Source `func FromCtx(ctx context.Context) Logger`: the assertion is to
`logrus.Fields`, not to `Fields`. -/
def FromCtx (ctx : Context) (w : World) : entryCtx × World :=
  let fields := (ctx.Value Key.fieldsCtxKey).assertLogrusFields
  let r := logrus.WithFields fields w
  (⟨r.1⟩, r.2)

/-! ## Specification vocabulary -/

/-- Going from `w` to `w1` wrote exactly one record, at level `lvl`, with message
`msg` and a field set whose contents are `f` (key by key). -/
def EmitsOne (w w1 : World) (lvl : Level) (msg : String) (f : String → Option Value) : Prop :=
  ∃ r : Record, w1.out = w.out ++ [r] ∧ r.level = lvl ∧ r.msg = msg ∧
    ∀ k, r.fields.get k = f k

/-- Going from `w` to `w1` wrote exactly one record, and in it key `k` has value `v`. -/
def EmitsField (w w1 : World) (k : String) (v : Value) : Prop :=
  ∃ r : Record, w1.out = w.out ++ [r] ∧ r.fields.get k = some v

/-- Contents of `base` overlaid by `over`, key by key: the value of `over` where it
has the key, otherwise that of `base`. -/
def overlayAt (base over : Fields) (k : String) : Option Value :=
  match over.get k with
  | some v => some v
  | none => base.get k

/-- The reference points to a map that has been allocated in `w` (nil counts). -/
def Allocated (w : World) (ref : Option Nat) : Prop := ∀ a, ref = some a → a < w.next

instance Allocated.decidable (w : World) (ref : Option Nat) : Decidable (Allocated w ref) :=
  match ref with
  | none => isTrue (fun _ h => nomatch h)
  | some a =>
    decidable_of_iff (a < w.next)
      ⟨fun h _ e => Option.some.inj e ▸ h, fun h => h a rfl⟩

/-! ## Scenarios -/

/-- The run of `TestLog` (src/fields_test.go), statement by statement. -/
def TestLog.lit1 : Nat × World := World.init.literal [("k1", Value.str "v1")]

/-- Test line 19: `ctx = log.CtxWithFields(ctx, log.Fields{"k1": "v1"})`. -/
def TestLog.ctx : Context × World := CtxWithFields Context.Background (some TestLog.lit1.1) TestLog.lit1.2

/-- Test line 20, the literal `log.Fields{"k2": "v2"}`. -/
def TestLog.lit2 : Nat × World := TestLog.ctx.2.literal [("k2", Value.str "v2")]

/-- Test line 20, the handle `log.WithFields(log.Fields{"k2": "v2"})`. -/
def TestLog.h2 : entryCtx × World := WithFields (some TestLog.lit2.1) TestLog.lit2.2

/-- Test line 20, after `.InfoC(ctx, "info")`. -/
def TestLog.w1 : World := TestLog.h2.1.InfoC TestLog.ctx.1 [Value.str "info"] TestLog.h2.2

/-- Test line 22, the handle `log.WithField("k3", "v3")`. -/
def TestLog.h3 : entryCtx × World := WithField "k3" (Value.str "v3") TestLog.w1

/-- Test line 22, after `.WarnfC(ctx, "warn%d", 1)`. -/
def TestLog.w2 : World := TestLog.h3.1.WarnfC TestLog.ctx.1 "warn%d" [Value.int 1] TestLog.h3.2

/-- Test line 24, the handle `log.WithError(errors.New("err"))`. -/
def TestLog.h4 : entryCtx × World := WithError ⟨"err"⟩ TestLog.w2

/-- Test line 24, after `.Error("msg")`. -/
def TestLog.w3 : World := TestLog.h4.1.Error [Value.str "msg"] TestLog.h4.2

/-- A handle and a context that both carry the key `k`: the handle
`log.WithField("k", "handle")`. -/
def Conflict.h : entryCtx × World := WithField "k" (Value.str "handle") World.init

/-- The context `log.CtxWithField(context.Background(), "k", "ctx")`. -/
def Conflict.ctx : Context × World :=
  CtxWithField Context.Background "k" (Value.str "ctx") Conflict.h.2

/-- After `h.InfoC(ctx, "m")`. -/
def Conflict.w : World := Conflict.h.1.InfoC Conflict.ctx.1 [Value.str "m"] Conflict.ctx.2

/-- A handle with one field, `log.WithField("y", "0")`. -/
def Handle.h0 : entryCtx × World := WithField "y" (Value.str "0") World.init

/-- A context that already carries a mapping, made after `Handle.h0`:
`log.CtxWithField(context.Background(), "a", "1")`. -/
def Attach.ctx : Context × World :=
  CtxWithField Context.Background "a" (Value.str "1") Handle.h0.2

/-- The literal `log.Fields{"a": "2", "b": "3"}`, made after `Attach.ctx`. -/
def Attach.lit : Nat × World :=
  Attach.ctx.2.literal [("a", Value.str "2"), ("b", Value.str "3")]

/-- The literal `log.Fields{"a": "4"}`, made after `Attach.lit`. -/
def Attach.lit2 : Nat × World := Attach.lit.2.literal [("a", Value.str "4")]

/-- The literal `log.Fields{"a": "4", "b": "3"}`, made after `Attach.lit2`: the
first literal overlaid by the second. -/
def Attach.both : Nat × World :=
  Attach.lit2.2.literal [("a", Value.str "4"), ("b", Value.str "3")]

/-- A context that already carries a mapping (`b = 0`), as any caller can hold it. -/
def Siblings.ctx0 : Context × World :=
  CtxWithField Context.Background "b" (Value.str "0") World.init

/-- The first child, `ctx1 = CtxWithField(ctx0, "a", "1")`. -/
def Siblings.ctx1 : Context × World :=
  CtxWithField Siblings.ctx0.1 "a" (Value.str "1") Siblings.ctx0.2

/-- The second child of the same parent, `ctx2 = CtxWithField(ctx0, "a", "2")`. -/
def Siblings.ctx2 : Context × World :=
  CtxWithField Siblings.ctx0.1 "a" (Value.str "2") Siblings.ctx1.2

/-- A parent context carrying `k1 = v1`. -/
def Parent.ctx : Context × World :=
  CtxWithField Context.Background "k1" (Value.str "v1") World.init

/-- A child derived by `CtxWithField(ctx, "k2", "v2")`. -/
def Parent.child : Context × World :=
  CtxWithField Parent.ctx.1 "k2" (Value.str "v2") Parent.ctx.2

/-- The literal `log.Fields{"k3": "v3"}`. -/
def Parent.lit : Nat × World := Parent.child.2.literal [("k3", Value.str "v3")]

/-- A second child, derived by `CtxWithFields(ctx, log.Fields{"k3": "v3"})`. -/
def Parent.child2 : Context × World :=
  CtxWithFields Parent.ctx.1 (some Parent.lit.1) Parent.lit.2

/-- The context `CtxWithField(context.Background(), "k", "v")`. -/
def Lost.ctx : Context × World :=
  CtxWithField Context.Background "k" (Value.str "v") World.init

/-- The handle `FromCtx(ctx)` for that context. -/
def Lost.h : entryCtx × World := FromCtx Lost.ctx.1 Lost.ctx.2

/-- What a record shows for the keys the test uses. -/
def Record.view (r : Record) : Level × String × List (Option Value) :=
  (r.level, r.msg, ["k1", "k2", "k3", "error"].map r.fields.get)

/-! ## Basic facts about maps and the heap -/

theorem lookupEntry_assignEntry (k : String) (v : Value) (l : List (String × Value))
    (k1 : String) :
    lookupEntry k1 (assignEntry k v l) = if k1 = k then some v else lookupEntry k1 l := by
  induction l with
  | nil =>
    by_cases h : k1 = k
    · simp [assignEntry, lookupEntry, h]
    · have h2 : ¬ k = k1 := fun e => h e.symm
      simp [assignEntry, lookupEntry, h, h2]
  | cons e rest ih =>
    by_cases he : e.1 = k
    · by_cases h : k1 = k
      · simp [assignEntry, lookupEntry, he, h]
      · have h2 : ¬ k = k1 := fun e => h e.symm
        simp [assignEntry, lookupEntry, he, h, h2]
    · by_cases h : k1 = k
      · subst h
        simp [assignEntry, lookupEntry, he, ih]
      · by_cases h3 : e.1 = k1
        · simp [assignEntry, lookupEntry, he, h, h3]
        · simp [assignEntry, lookupEntry, he, h, h3, ih]

theorem Fields.get_assign (m : Fields) (k : String) (v : Value) (k1 : String) :
    (m.assign k v).get k1 = if k1 = k then some v else m.get k1 := by
  simp [Fields.get, Fields.assign, lookupEntry_assignEntry]

theorem Fields.get_empty (k : String) : Fields.empty.get k = none := rfl

theorem overlayAt_empty_left (F : Fields) (k : String) :
    overlayAt Fields.empty F k = F.get k := by
  unfold overlayAt
  cases h : F.get k <;> simp [Fields.get_empty]

/-- What the body of a `range` loop does to the world for one key. -/
theorem rangeStep_fold (S : Fields) (dst : Nat) (ks : List String) (w : World) :
    let W := ks.foldl
      (fun w k => match S.get k with
        | some v => w.mapassign dst k v
        | none => w) w
    W.next = w.next ∧ W.out = w.out ∧ W.exited = w.exited ∧
      (∀ a, a ≠ dst → W.heap a = w.heap a) ∧
      ∀ k, (W.heap dst).get k =
        if k ∈ ks then overlayAt (w.heap dst) S k else (w.heap dst).get k := by
  induction ks generalizing w with
  | nil => simp
  | cons k0 ks ih =>
    intro W
    have hW : W = ks.foldl
        (fun w k => match S.get k with
          | some v => w.mapassign dst k v
          | none => w)
        (match S.get k0 with
          | some v => w.mapassign dst k0 v
          | none => w) := rfl
    rw [hW]
    cases h0 : S.get k0 with
    | none =>
      obtain ⟨h1, h2, h3, h4, h5⟩ := ih w
      refine ⟨h1, h2, h3, h4, ?_⟩
      intro k
      rw [h5 k]
      by_cases hk : k = k0
      · subst hk
        simp [overlayAt, h0]
      · simp [hk]
    | some v0 =>
      obtain ⟨h1, h2, h3, h4, h5⟩ := ih (w.mapassign dst k0 v0)
      refine ⟨h1, h2, h3, ?_, ?_⟩
      · intro a ha
        rw [h4 a ha]
        simp [World.mapassign, ha]
      · intro k
        rw [h5 k]
        by_cases hk : k = k0
        · subst hk
          simp [overlayAt, h0, World.mapassign, Fields.get_assign]
        · simp [hk, overlayAt, World.mapassign, Fields.get_assign]

theorem lookupEntry_some_mem (k : String) (l : List (String × Value)) (v : Value)
    (h : lookupEntry k l = some v) : k ∈ l.map Prod.fst := by
  induction l with
  | nil => simp [lookupEntry] at h
  | cons e rest ih =>
    by_cases he : e.1 = k
    · simp [he]
    · simp [lookupEntry, he] at h
      simp [ih h]

theorem World.rangeAssign_next (w : World) (dst : Nat) (src : Option Nat) :
    (w.rangeAssign dst src).next = w.next :=
  (rangeStep_fold (w.load src) dst (w.load src).keys w).1

theorem World.rangeAssign_out (w : World) (dst : Nat) (src : Option Nat) :
    (w.rangeAssign dst src).out = w.out :=
  (rangeStep_fold (w.load src) dst (w.load src).keys w).2.1

theorem World.rangeAssign_exited (w : World) (dst : Nat) (src : Option Nat) :
    (w.rangeAssign dst src).exited = w.exited :=
  (rangeStep_fold (w.load src) dst (w.load src).keys w).2.2.1

theorem World.rangeAssign_heap_ne (w : World) (dst : Nat) (src : Option Nat) (a : Nat)
    (h : a ≠ dst) : (w.rangeAssign dst src).heap a = w.heap a :=
  (rangeStep_fold (w.load src) dst (w.load src).keys w).2.2.2.1 a h

theorem World.rangeAssign_heap_dst (w : World) (dst : Nat) (src : Option Nat) (k : String) :
    ((w.rangeAssign dst src).heap dst).get k = overlayAt (w.heap dst) (w.load src) k := by
  have h := (rangeStep_fold (w.load src) dst (w.load src).keys w).2.2.2.2 k
  have e : ((w.rangeAssign dst src).heap dst).get k =
      if k ∈ (w.load src).keys then overlayAt (w.heap dst) (w.load src) k
      else (w.heap dst).get k := h
  rw [e]
  by_cases hk : k ∈ (w.load src).keys
  · simp [hk]
  · simp only [hk, if_false]
    cases hg : (w.load src).get k with
    | none => simp [overlayAt, hg]
    | some v => exact absurd (lookupEntry_some_mem k _ v hg) hk

theorem overlayAt_congr (A B S : Fields) (k : String) (h : A.get k = B.get k) :
    overlayAt A S k = overlayAt B S k := by
  simp [overlayAt, h]

theorem overlayAt_assign_empty (A : Fields) (key : String) (value : Value) (k : String) :
    overlayAt A (Fields.empty.assign key value) k = if k = key then some value else A.get k := by
  by_cases h : k = key
  · simp [overlayAt, Fields.get_assign, h]
  · simp [overlayAt, Fields.get_assign, h, Fields.get_empty]

/-! ## The backend primitives on the heap -/

/-- Effect of `Entry.WithFields`: one fresh map at `w.next`, holding the receiver's
entries overlaid by the new ones; nothing else changes. -/
theorem Entry_WithFields_effect (entry : logrus.Entry) (fields : Option Nat) (w : World)
    (he : entry.Data < w.next) (hf : Allocated w fields) :
    (entry.WithFields fields w).1.Data = w.next ∧
    (entry.WithFields fields w).2.next = w.next + 1 ∧
    (entry.WithFields fields w).2.out = w.out ∧
    (∀ a, a ≠ w.next → (entry.WithFields fields w).2.heap a = w.heap a) ∧
    ∀ k, ((entry.WithFields fields w).2.heap w.next).get k =
      overlayAt (w.heap entry.Data) (w.load fields) k := by
  have hne : entry.Data ≠ w.next := Nat.ne_of_lt he
  refine ⟨rfl, ?_, ?_, ?_, ?_⟩
  · simp [logrus.Entry.WithFields, World.rangeAssign_next, World.make]
  · simp [logrus.Entry.WithFields, World.rangeAssign_out, World.make]
  · intro a ha
    simp [logrus.Entry.WithFields, World.make, World.rangeAssign_heap_ne _ _ _ a ha, ha]
  · intro k
    have hload : ∀ w1 : World, (∀ a, a ≠ w.next → w1.heap a = w.heap a) →
        w1.load fields = w.load fields := by
      intro w1 h1
      cases fields with
      | none => rfl
      | some a => exact h1 a (Nat.ne_of_lt (hf a rfl))
    simp only [logrus.Entry.WithFields, World.make]
    rw [World.rangeAssign_heap_dst]
    rw [hload _ (fun a ha => by rw [World.rangeAssign_heap_ne _ _ _ a ha]; simp [ha])]
    apply overlayAt_congr
    rw [World.rangeAssign_heap_dst]
    simp [World.load, hne, overlayAt_empty_left]

/-- Effect of the package-level `logrus.WithFields`: two fresh maps (the base entry
at `w.next`, the result at `w.next + 1`); the result holds the given entries. -/
theorem logrus_WithFields_effect (fields : Option Nat) (w : World) (hf : Allocated w fields) :
    (logrus.WithFields fields w).1.Data = w.next + 1 ∧
    (logrus.WithFields fields w).2.next = w.next + 2 ∧
    (logrus.WithFields fields w).2.out = w.out ∧
    (∀ a, a < w.next → (logrus.WithFields fields w).2.heap a = w.heap a) ∧
    ∀ k, ((logrus.WithFields fields w).2.heap (w.next + 1)).get k = (w.load fields).get k := by
  have hf1 : Allocated (logrus.newEntry w).2 fields := by
    intro a ha
    have := hf a ha
    simp only [logrus.newEntry, World.make]
    omega
  have hload : (logrus.newEntry w).2.load fields = w.load fields := by
    cases fields with
    | none => rfl
    | some a =>
      have := hf a rfl
      simp [logrus.newEntry, World.make, World.load, Nat.ne_of_lt this]
  obtain ⟨h1, h2, h3, h4, h5⟩ :=
    Entry_WithFields_effect (logrus.newEntry w).1 fields (logrus.newEntry w).2
      (by simp [logrus.newEntry, World.make]) hf1
  have hn : (logrus.newEntry w).2.next = w.next + 1 := rfl
  rw [hn] at h1 h2 h4 h5
  refine ⟨h1, h2, h3, ?_, ?_⟩
  · intro a ha
    have e := h4 a (by omega)
    have e1 : (logrus.WithFields fields w).2.heap a = (logrus.newEntry w).2.heap a := e
    rw [e1]
    simp [logrus.newEntry, World.make, Nat.ne_of_lt ha]
  · intro k
    have e := h5 k
    have e1 : ((logrus.WithFields fields w).2.heap (w.next + 1)).get k =
        overlayAt ((logrus.newEntry w).2.heap (logrus.newEntry w).1.Data)
          ((logrus.newEntry w).2.load fields) k := e
    rw [e1, hload]
    have e2 : (logrus.newEntry w).2.heap (logrus.newEntry w).1.Data = Fields.empty := by
      simp [logrus.newEntry, World.make]
    rw [e2, overlayAt_empty_left]

/-- Effect of `Entry.WithField`: the literal at `w.next`, the result at
`w.next + 1`, holding the receiver's entries with `key` set to `value`. -/
theorem Entry_WithField_effect (entry : logrus.Entry) (key : String) (value : Value)
    (w : World) (he : entry.Data < w.next) :
    (entry.WithField key value w).1.Data = w.next + 1 ∧
    (entry.WithField key value w).2.next = w.next + 2 ∧
    (entry.WithField key value w).2.out = w.out ∧
    (∀ a, a < w.next → (entry.WithField key value w).2.heap a = w.heap a) ∧
    ∀ k, ((entry.WithField key value w).2.heap (w.next + 1)).get k =
      if k = key then some value else (w.heap entry.Data).get k := by
  have hlit1 : (w.literal [(key, value)]).1 = w.next := rfl
  have hlitn : (w.literal [(key, value)]).2.next = w.next + 1 := rfl
  have hlith : ∀ a, (w.literal [(key, value)]).2.heap a =
      if a = w.next then Fields.empty.assign key value else w.heap a := by
    intro a
    by_cases ha : a = w.next <;> simp [World.literal, World.make, World.mapassign, ha]
  obtain ⟨h1, h2, h3, h4, h5⟩ :=
    Entry_WithFields_effect entry (some (w.literal [(key, value)]).1)
      (w.literal [(key, value)]).2 (by rw [hlitn]; omega)
      (by intro a ha; rw [hlit1] at ha; cases ha; rw [hlitn]; omega)
  rw [hlitn] at h1 h2 h4 h5
  refine ⟨h1, h2, h3, ?_, ?_⟩
  · intro a ha
    have e : (entry.WithField key value w).2.heap a = (w.literal [(key, value)]).2.heap a :=
      h4 a (by omega)
    rw [e, hlith]
    simp [Nat.ne_of_lt ha]
  · intro k
    have e : ((entry.WithField key value w).2.heap (w.next + 1)).get k =
        overlayAt ((w.literal [(key, value)]).2.heap entry.Data)
          ((w.literal [(key, value)]).2.load (some (w.literal [(key, value)]).1)) k := h5 k
    rw [e]
    simp only [World.load, hlit1, hlith, if_true, Nat.ne_of_lt he, if_false]
    exact overlayAt_assign_empty _ _ _ _

/-- Effect of the package-level `logrus.WithField`: three fresh maps; the result,
at `w.next + 2`, holds exactly `key` with `value`. -/
theorem logrus_WithField_effect (key : String) (value : Value) (w : World) :
    (logrus.WithField key value w).1.Data = w.next + 2 ∧
    (logrus.WithField key value w).2.next = w.next + 3 ∧
    (logrus.WithField key value w).2.out = w.out ∧
    (∀ a, a < w.next → (logrus.WithField key value w).2.heap a = w.heap a) ∧
    ∀ k, ((logrus.WithField key value w).2.heap (w.next + 2)).get k =
      if k = key then some value else none := by
  obtain ⟨h1, h2, h3, h4, h5⟩ :=
    Entry_WithField_effect (logrus.newEntry w).1 key value (logrus.newEntry w).2
      (by simp [logrus.newEntry, World.make])
  have hn : (logrus.newEntry w).2.next = w.next + 1 := rfl
  rw [hn] at h1 h2 h4 h5
  refine ⟨h1, h2, h3, ?_, ?_⟩
  · intro a ha
    have e : (logrus.WithField key value w).2.heap a = (logrus.newEntry w).2.heap a :=
      h4 a (by omega)
    rw [e]
    simp [logrus.newEntry, World.make, Nat.ne_of_lt ha]
  · intro k
    have e : ((logrus.WithField key value w).2.heap (w.next + 2)).get k =
        if k = key then some value
        else ((logrus.newEntry w).2.heap (logrus.newEntry w).1.Data).get k := h5 k
    rw [e]
    simp [logrus.newEntry, World.make, Fields.get_empty]

/-! ## The context functions on the heap -/

theorem World.load_some (w : World) (a : Nat) : w.load (some a) = w.heap a := rfl

theorem World.load_none (w : World) : w.load none = Fields.empty := rfl

theorem ctxFields_WithValue (ctx : Context) (ref : Nat) :
    ctxFields (Context.WithValue ctx Key.fieldsCtxKey (Any.logFields ref)) = some ref := by
  simp [ctxFields, Context.Value, Any.assertFields]

/-- Reading the result of `CtxWithField`: the context's mapping with `k` set to `v`. -/
theorem readFields_CtxWithField (ctx : Context) (k : String) (v : Value) (w : World)
    (key : String) :
    (readFields (CtxWithField ctx k v w).1 (CtxWithField ctx k v w).2).get key =
      if key = k then some v else (readFields ctx w).get key := by
  cases h : ctxFields ctx with
  | none =>
    have h1 : (ctx.Value Key.fieldsCtxKey).assertFields = none := h
    simp [CtxWithField, h1, readFields, ctxFields_WithValue, h, World.load, World.mapassign,
      World.make, Fields.get_assign, Fields.get_empty]
  | some r =>
    have h1 : (ctx.Value Key.fieldsCtxKey).assertFields = some r := h
    simp [CtxWithField, h1, readFields, ctxFields_WithValue, h, World.load, World.mapassign,
      Fields.get_assign]

/-- Reading the result of `CtxWithFields`: the context's mapping overlaid by the
given one. -/
theorem readFields_CtxWithFields (ctx : Context) (fields : Option Nat) (w : World)
    (hf : Allocated w fields) (key : String) :
    (readFields (CtxWithFields ctx fields w).1 (CtxWithFields ctx fields w).2).get key =
      overlayAt (readFields ctx w) (w.load fields) key := by
  cases h : ctxFields ctx with
  | none =>
    have h1 : (ctx.Value Key.fieldsCtxKey).assertFields = none := h
    have hload : w.make.2.load fields = w.load fields := by
      cases fields with
      | none => rfl
      | some a =>
        have := hf a rfl
        simp [World.make, World.load, Nat.ne_of_lt this]
    simp only [CtxWithFields, h1, readFields, ctxFields_WithValue, h, World.load_some,
      World.load_none]
    rw [World.rangeAssign_heap_dst, hload]
    apply overlayAt_congr
    simp [World.make, Fields.get_empty]
  | some r =>
    have h1 : (ctx.Value Key.fieldsCtxKey).assertFields = some r := h
    simp only [CtxWithFields, h1, readFields, ctxFields_WithValue, h, World.load_some]
    rw [World.rangeAssign_heap_dst]

/-! ## Emission -/

theorem fmt.Sprint_single_str (msg : String) : fmt.Sprint [Value.str msg] = msg := by
  simp [fmt.Sprint, fmt.formatValue]

/-- Logging through an entry writes one record with the entry's field set. -/
theorem EmitsOne_log (entry : logrus.Entry) (lvl : Level) (msg : String) (w : World) :
    EmitsOne w (entry.log lvl msg w) lvl msg (w.heap entry.Data).get :=
  ⟨⟨lvl, msg, w.heap entry.Data⟩, rfl, rfl, rfl, fun _ => rfl⟩

/-- The emission path of the free context-aware functions: `logrus.WithFields` on
the context's map, then one record. -/
theorem EmitsOne_free (fields : Option Nat) (w : World) (hf : Allocated w fields)
    (lvl : Level) (msg : String) :
    EmitsOne w ((logrus.WithFields fields w).1.log lvl msg (logrus.WithFields fields w).2)
      lvl msg (w.load fields).get := by
  obtain ⟨h1, _, h3, _, h5⟩ := logrus_WithFields_effect fields w hf
  refine ⟨⟨lvl, msg, (logrus.WithFields fields w).2.heap (logrus.WithFields fields w).1.Data⟩,
    ?_, rfl, rfl, ?_⟩
  · simp [logrus.Entry.log, h3]
  · intro k
    rw [h1]
    exact h5 k

/-- The emission path of the handle's context-aware methods: `Entry.WithFields` on
the context's map, then one record. -/
theorem EmitsOne_handle (entry : logrus.Entry) (fields : Option Nat) (w : World)
    (he : entry.Data < w.next) (hf : Allocated w fields) (lvl : Level) (msg : String) :
    EmitsOne w ((entry.WithFields fields w).1.log lvl msg (entry.WithFields fields w).2)
      lvl msg (overlayAt (w.heap entry.Data) (w.load fields)) := by
  obtain ⟨h1, _, h3, _, h5⟩ := Entry_WithFields_effect entry fields w he hf
  refine ⟨⟨lvl, msg, (entry.WithFields fields w).2.heap (entry.WithFields fields w).1.Data⟩,
    ?_, rfl, rfl, ?_⟩
  · simp [logrus.Entry.log, h3]
  · intro k
    rw [h1]
    exact h5 k

theorem EmitsOne.field (w w1 : World) (lvl : Level) (msg : String) (f : String → Option Value)
    (k : String) (v : Value) (h : EmitsOne w w1 lvl msg f) (hk : f k = some v) :
    EmitsField w w1 k v := by
  obtain ⟨r, h1, _, _, h4⟩ := h
  exact ⟨r, h1, by rw [h4 k, hk]⟩

theorem CtxWithField_ctxFields_allocated (ctx : Context) (k : String) (v : Value) (w : World)
    (hc : Allocated w (ctxFields ctx)) :
    Allocated (CtxWithField ctx k v w).2 (ctxFields (CtxWithField ctx k v w).1) := by
  cases h : ctxFields ctx with
  | none =>
    have h1 : (ctx.Value Key.fieldsCtxKey).assertFields = none := h
    intro a ha
    simp only [CtxWithField, h1, ctxFields_WithValue] at ha
    simp only [CtxWithField, h1, World.mapassign, World.make]
    have : w.next = a := Option.some.inj ha
    omega
  | some r =>
    have h1 : (ctx.Value Key.fieldsCtxKey).assertFields = some r := h
    intro a ha
    simp only [CtxWithField, h1, ctxFields_WithValue] at ha
    simp only [CtxWithField, h1, World.mapassign]
    have e : r = a := Option.some.inj ha
    have := hc r h
    omega

/-! ## The claims -/

/-- C5. Ambient-context emission: each of the free functions `DebugC`, `InfoC`,
`WarnC`, `ErrorC`, `FatalC` and their f-forms writes exactly one record, at its own
level, with the message rendered by `Sprint` (resp. `Sprintf`), whose field set is
the mapping read from `ctx`; when nothing is attached to `ctx` that field set is
empty; and `InfoC(CtxWithField(ctx, "key", "value"), "message")` writes a record
with message `message` in which `key` has the value `value`. -/
theorem free_context_functions_emit_context_fields (ctx : Context) (args : List Value)
    (format : String) (w : World) (hc : Allocated w (ctxFields ctx)) :
    (EmitsOne w (DebugC ctx args w) Level.debug (fmt.Sprint args) (readFields ctx w).get ∧
     EmitsOne w (InfoC ctx args w) Level.info (fmt.Sprint args) (readFields ctx w).get ∧
     EmitsOne w (WarnC ctx args w) Level.warning (fmt.Sprint args) (readFields ctx w).get ∧
     EmitsOne w (ErrorC ctx args w) Level.error (fmt.Sprint args) (readFields ctx w).get ∧
     EmitsOne w (FatalC ctx args w) Level.fatal (fmt.Sprint args) (readFields ctx w).get) ∧
    (EmitsOne w (DebugfC ctx format args w) Level.debug (fmt.Sprintf format args)
       (readFields ctx w).get ∧
     EmitsOne w (InfofC ctx format args w) Level.info (fmt.Sprintf format args)
       (readFields ctx w).get ∧
     EmitsOne w (WarnfC ctx format args w) Level.warning (fmt.Sprintf format args)
       (readFields ctx w).get ∧
     EmitsOne w (ErrorfC ctx format args w) Level.error (fmt.Sprintf format args)
       (readFields ctx w).get ∧
     EmitsOne w (FatalfC ctx format args w) Level.fatal (fmt.Sprintf format args)
       (readFields ctx w).get) ∧
    (ctxFields ctx = none → ∀ k, (readFields ctx w).get k = none) ∧
    EmitsOne (CtxWithField ctx "key" (Value.str "value") w).2
      (InfoC (CtxWithField ctx "key" (Value.str "value") w).1 [Value.str "message"]
        (CtxWithField ctx "key" (Value.str "value") w).2)
      Level.info "message"
      (fun k => if k = "key" then some (Value.str "value") else (readFields ctx w).get k) := by
  have key : ∀ (c : Context) (u : World), Allocated u (ctxFields c) →
      ∀ lvl msg, EmitsOne u
        ((logrus.WithFields (ctxFields c) u).1.log lvl msg (logrus.WithFields (ctxFields c) u).2)
        lvl msg (readFields c u).get :=
    fun c u h lvl msg => EmitsOne_free (ctxFields c) u h lvl msg
  refine ⟨⟨key ctx w hc _ _, key ctx w hc _ _, key ctx w hc _ _, key ctx w hc _ _,
    key ctx w hc _ _⟩, ⟨key ctx w hc _ _, key ctx w hc _ _, key ctx w hc _ _, key ctx w hc _ _,
    key ctx w hc _ _⟩, ?_, ?_⟩
  · intro h k
    simp [readFields, h, World.load, Fields.get_empty]
  · have h := key (CtxWithField ctx "key" (Value.str "value") w).1
      (CtxWithField ctx "key" (Value.str "value") w).2
      (CtxWithField_ctxFields_allocated ctx "key" (Value.str "value") w hc)
      Level.info (fmt.Sprint [Value.str "message"])
    rw [fmt.Sprint_single_str] at h
    obtain ⟨r, h1, h2, h3, h4⟩ := h
    exact ⟨r, h1, h2, h3, fun k => by rw [h4 k, readFields_CtxWithField]⟩

/-- C5, instance: the context of `TestLog` (carrying `k1 = v1`) in the world right
after it was built. -/
theorem free_context_functions_emit_context_fields_witness :
    Allocated TestLog.ctx.2 (ctxFields TestLog.ctx.1) ∧
    (readFields TestLog.ctx.1 TestLog.ctx.2).get "k1" = some (Value.str "v1") ∧
    EmitsOne TestLog.ctx.2 (InfoC TestLog.ctx.1 [Value.str "info"] TestLog.ctx.2) Level.info
      (fmt.Sprint [Value.str "info"]) (readFields TestLog.ctx.1 TestLog.ctx.2).get :=
  ⟨by decide, by decide,
    (free_context_functions_emit_context_fields TestLog.ctx.1 [Value.str "info"] "" TestLog.ctx.2
      (by decide)).1.2.1⟩

/-- C4, counterexample: the handle carries `k = "handle"`, the context carries
`k = "ctx"`, and the record written by `h.InfoC(ctx, "m")` has `k = "ctx"`, not the
handle's value. -/
theorem hybrid_conflict_record_has_context_value :
    (Conflict.ctx.2.heap Conflict.h.1.Entry.Data).get "k" = some (Value.str "handle") ∧
    (readFields Conflict.ctx.1 Conflict.ctx.2).get "k" = some (Value.str "ctx") ∧
    Conflict.w.out.map (fun r => r.fields.get "k") = [some (Value.str "ctx")] ∧
    Conflict.w.out.map (fun r => r.fields.get "k") ≠ [some (Value.str "handle")] := by
  decide

/-- C4, amended. Hybrid precedence on conflict: when the handle carries `k` with
value `vh` and the mapping attached to `ctx` carries `k` with value `vc`, each of
the handle's context methods (`DebugC`, `InfoC`, `WarnC`, `ErrorC`, `FatalC` and
their f-forms) writes exactly one record in which `k` has the context's value `vc`:
handle fields are the base and context fields are the overlay. -/
theorem hybrid_conflict_context_value_wins (e : entryCtx) (ctx : Context) (w : World)
    (k : String) (vh vc : Value) (args : List Value) (format : String)
    (he : e.Entry.Data < w.next) (hc : Allocated w (ctxFields ctx))
    (_hh : (w.heap e.Entry.Data).get k = some vh)
    (hv : (readFields ctx w).get k = some vc) :
    (EmitsField w (e.DebugC ctx args w) k vc ∧
     EmitsField w (e.InfoC ctx args w) k vc ∧
     EmitsField w (e.WarnC ctx args w) k vc ∧
     EmitsField w (e.ErrorC ctx args w) k vc ∧
     EmitsField w (e.FatalC ctx args w) k vc) ∧
    (EmitsField w (e.DebugfC ctx format args w) k vc ∧
     EmitsField w (e.InfofC ctx format args w) k vc ∧
     EmitsField w (e.WarnfC ctx format args w) k vc ∧
     EmitsField w (e.ErrorfC ctx format args w) k vc ∧
     EmitsField w (e.FatalfC ctx format args w) k vc) := by
  have hk : overlayAt (w.heap e.Entry.Data) (w.load (ctxFields ctx)) k = some vc := by
    have hv1 : (w.load (ctxFields ctx)).get k = some vc := hv
    simp [overlayAt, hv1]
  have key : ∀ lvl msg, EmitsField w
      ((e.Entry.WithFields (ctxFields ctx) w).1.log lvl msg
        (e.Entry.WithFields (ctxFields ctx) w).2) k vc :=
    fun lvl msg => EmitsOne.field _ _ lvl msg _ k vc
      (EmitsOne_handle e.Entry (ctxFields ctx) w he hc lvl msg) hk
  exact ⟨⟨key _ _, key _ _, key _ _, key _ _, key _ _⟩,
    ⟨key _ _, key _ _, key _ _, key _ _, key _ _⟩⟩

/-- C4, instance of the amended claim: the handle `WithField("k", "handle")` and the
context `CtxWithField(Background, "k", "ctx")`. -/
theorem hybrid_conflict_context_value_wins_witness :
    Conflict.h.1.Entry.Data < Conflict.ctx.2.next ∧
    Allocated Conflict.ctx.2 (ctxFields Conflict.ctx.1) ∧
    EmitsField Conflict.ctx.2 (Conflict.h.1.InfoC Conflict.ctx.1 [Value.str "m"] Conflict.ctx.2)
      "k" (Value.str "ctx") :=
  ⟨by decide, by decide,
    (hybrid_conflict_context_value_wins Conflict.h.1 Conflict.ctx.1 Conflict.ctx.2 "k"
      (Value.str "handle") (Value.str "ctx") [Value.str "m"] "" (by decide) (by decide)
      (by decide) (by decide)).1.2.1⟩

/-- C6. Hybrid emission with disjoint keys: for a handle `e` and a context `ctx`
with no key in common, `e.InfoC(ctx, msg)` writes exactly one info record with
message `msg`, and `e.WarnfC(ctx, format, args...)` exactly one warning record with
message `Sprintf(format, args...)`; the field set of both is the union of the
context's fields and the handle's fields: a key has a value in the record exactly
when the context or the handle gives it that value. -/
theorem hybrid_disjoint_emits_union (e : entryCtx) (ctx : Context) (w : World)
    (msg format : String) (args : List Value)
    (he : e.Entry.Data < w.next) (hc : Allocated w (ctxFields ctx))
    (hd : ∀ k, (readFields ctx w).get k = none ∨ (w.heap e.Entry.Data).get k = none) :
    EmitsOne w (e.InfoC ctx [Value.str msg] w) Level.info msg
      (overlayAt (w.heap e.Entry.Data) (readFields ctx w)) ∧
    EmitsOne w (e.WarnfC ctx format args w) Level.warning (fmt.Sprintf format args)
      (overlayAt (w.heap e.Entry.Data) (readFields ctx w)) ∧
    ∀ k v, overlayAt (w.heap e.Entry.Data) (readFields ctx w) k = some v ↔
      ((readFields ctx w).get k = some v ∨ (w.heap e.Entry.Data).get k = some v) := by
  refine ⟨?_, EmitsOne_handle e.Entry (ctxFields ctx) w he hc _ _, ?_⟩
  · have h := EmitsOne_handle e.Entry (ctxFields ctx) w he hc Level.info
      (fmt.Sprint [Value.str msg])
    rw [fmt.Sprint_single_str] at h
    exact h
  · intro k v
    unfold overlayAt
    cases hcv : (readFields ctx w).get k with
    | none => simp
    | some vc =>
      rcases hd k with h | h
      · rw [hcv] at h
        exact absurd h (by simp)
      · simp [h]

/-- C6, instance: the first two statements of `TestLog`. The context carries
`k1 = v1`, the handle `k2 = v2`; the whole run writes the three records the test
expects. -/
theorem hybrid_disjoint_emits_union_witness :
    (TestLog.h2.1.Entry.Data < TestLog.h2.2.next ∧
     Allocated TestLog.h2.2 (ctxFields TestLog.ctx.1) ∧
     ∀ k, (readFields TestLog.ctx.1 TestLog.h2.2).get k = none ∨
       (TestLog.h2.2.heap TestLog.h2.1.Entry.Data).get k = none) ∧
    EmitsOne TestLog.h2.2 TestLog.w1 Level.info "info"
      (overlayAt (TestLog.h2.2.heap TestLog.h2.1.Entry.Data)
        (readFields TestLog.ctx.1 TestLog.h2.2)) ∧
    TestLog.w3.out.map Record.view =
      [(Level.info, "info", [some (Value.str "v1"), some (Value.str "v2"), none, none]),
       (Level.warning, "warn1", [some (Value.str "v1"), none, some (Value.str "v3"), none]),
       (Level.error, "msg", [none, none, none, some (Value.error ⟨"err"⟩)])] := by
  have hd : ∀ k, (readFields TestLog.ctx.1 TestLog.h2.2).get k = none ∨
      (TestLog.h2.2.heap TestLog.h2.1.Entry.Data).get k = none := by
    intro k
    by_cases h : k = "k1"
    · right
      subst h
      decide
    · left
      have e : (readFields TestLog.ctx.1 TestLog.h2.2).entries = [("k1", Value.str "v1")] := by
        decide
      have h2 : ¬ "k1" = k := fun e => h e.symm
      simp [Fields.get, e, lookupEntry, h2]
  exact ⟨⟨by decide, by decide, hd⟩,
    (hybrid_disjoint_emits_union TestLog.h2.1 TestLog.ctx.1 TestLog.h2.2 "info" "warn%d"
      [Value.int 1] (by decide) (by decide) hd).1, by decide⟩

/-- C3. Attach postcondition: the mapping read from `CtxWithFields(ctx, fields)` is
the mapping read from `ctx` (empty if none was attached) overlaid by `fields`, the
value from `fields` winning on a common key; the mapping read from
`CtxWithField(ctx, k, v)` is that of `ctx` with `k` set to `v`; and every key of the
mapping of `ctx` is still present in both results. -/
theorem attach_postcondition (ctx : Context) (fields : Option Nat) (k : String) (v : Value)
    (w : World) (hf : Allocated w fields) :
    (∀ key, (readFields (CtxWithFields ctx fields w).1 (CtxWithFields ctx fields w).2).get key =
      match (w.load fields).get key with
      | some x => some x
      | none => (readFields ctx w).get key) ∧
    (∀ key, (readFields (CtxWithField ctx k v w).1 (CtxWithField ctx k v w).2).get key =
      if key = k then some v else (readFields ctx w).get key) ∧
    (ctxFields ctx = none → ∀ key, (readFields ctx w).get key = none) ∧
    ∀ key, (readFields ctx w).get key ≠ none →
      (readFields (CtxWithFields ctx fields w).1 (CtxWithFields ctx fields w).2).get key ≠ none ∧
      (readFields (CtxWithField ctx k v w).1 (CtxWithField ctx k v w).2).get key ≠ none := by
  refine ⟨fun key => readFields_CtxWithFields ctx fields w hf key,
    fun key => readFields_CtxWithField ctx k v w key, ?_, ?_⟩
  · intro h key
    simp [readFields, h, World.load, Fields.get_empty]
  · intro key hkey
    constructor
    · rw [readFields_CtxWithFields ctx fields w hf key]
      unfold overlayAt
      cases (w.load fields).get key with
      | none => exact hkey
      | some x => simp
    · rw [readFields_CtxWithField]
      by_cases h : key = k
      · simp [h]
      · simp [h, hkey]

/-- C3, instance: attaching `{a: 2, b: 3}` to a context that carries `a = 1`. -/
theorem attach_postcondition_witness :
    Allocated Attach.lit.2 (some Attach.lit.1) ∧
    (readFields (CtxWithFields Attach.ctx.1 (some Attach.lit.1) Attach.lit.2).1
      (CtxWithFields Attach.ctx.1 (some Attach.lit.1) Attach.lit.2).2).get "a" =
      (match (Attach.lit.2.load (some Attach.lit.1)).get "a" with
      | some x => some x
      | none => (readFields Attach.ctx.1 Attach.lit.2).get "a") ∧
    (readFields (CtxWithFields Attach.ctx.1 (some Attach.lit.1) Attach.lit.2).1
      (CtxWithFields Attach.ctx.1 (some Attach.lit.1) Attach.lit.2).2).get "a" =
      some (Value.str "2") :=
  ⟨by decide,
    (attach_postcondition Attach.ctx.1 (some Attach.lit.1) "a" (Value.str "1") Attach.lit.2
      (by decide)).1 "a",
    by decide⟩

/-- C9. Error attachment without context: from any world, `WithError(err).Error(msg)`
writes exactly one record, at error level, with message `msg`, whose field set is the
single key `logrus.ErrorKey` (that is, `error`) holding the error, which renders as
its description; no other key is present, whatever has been attached to any context.
The handle method `WithError(err)` is `WithField` with that same key. -/
theorem WithError_Error_emits_only_the_error (err : GoError) (msg : String) (w : World)
    (e : entryCtx) :
    EmitsOne w ((WithError err w).1.Error [Value.str msg] (WithError err w).2) Level.error msg
      (fun k => if k = logrus.ErrorKey then some (Value.error err) else none) ∧
    logrus.ErrorKey = "error" ∧
    fmt.formatValue 'v' (Value.error err) = err.description ∧
    e.WithError err w = e.WithField logrus.ErrorKey (Value.error err) w ∧
    TestLog.w3.out.map Record.view =
      TestLog.w2.out.map Record.view ++
        [(Level.error, "msg", [none, none, none, some (Value.error ⟨"err"⟩)])] := by
  obtain ⟨h1, _, h3, _, h5⟩ := logrus_WithField_effect logrus.ErrorKey (Value.error err) w
  refine ⟨⟨⟨Level.error, fmt.Sprint [Value.str msg],
      (WithError err w).2.heap (WithError err w).1.Entry.Data⟩, ?_, rfl,
      fmt.Sprint_single_str msg, ?_⟩, rfl, ?_, rfl, by decide⟩
  · have e1 : (WithError err w).2.out = w.out := h3
    simp [entryCtx.Error, logrus.Entry.Error, logrus.Entry.log, e1]
  · intro k
    have e1 : (WithError err w).1.Entry.Data = w.next + 2 := h1
    rw [e1]
    exact h5 k
  · simp [fmt.formatValue]

/-- Effect of the handle method `WithField` (source lines 105-107). -/
theorem entryCtx_WithField_effect (e : entryCtx) (k : String) (v : Value) (w : World)
    (he : e.Entry.Data < w.next) :
    (e.WithField k v w).1.Entry.Data = w.next + 1 ∧
    (e.WithField k v w).2.next = w.next + 2 ∧
    (e.WithField k v w).2.out = w.out ∧
    (∀ a, a < w.next → (e.WithField k v w).2.heap a = w.heap a) ∧
    ∀ key, ((e.WithField k v w).2.heap (w.next + 1)).get key =
      if key = k then some v else (w.heap e.Entry.Data).get key :=
  Entry_WithField_effect e.Entry k v w he

/-- C7. Handle immutability: let `h0` be a handle without the key `x`,
`h1 = h0.WithField("x", "1")` and then `h2 = h0.WithField("x", "2")`. Afterwards a
record written through `h0` has the field set `h0` had before (no `x`), one written
through `h1` has that field set plus `x = 1`, one through `h2` that field set plus
`x = 2`. `WithField`, `WithFields` and `WithError` return a handle on a new map and
leave the contents of the receiver's map as they were. -/
theorem handle_immutability (h0 h1 h2 : entryCtx) (w w1 w2 : World) (args : List Value)
    (fields : Option Nat) (err : GoError)
    (he : h0.Entry.Data < w.next) (hf : Allocated w fields)
    (hx : (w.heap h0.Entry.Data).get "x" = none)
    (e1 : h0.WithField "x" (Value.str "1") w = (h1, w1))
    (e2 : h0.WithField "x" (Value.str "2") w1 = (h2, w2)) :
    (EmitsOne w2 (h0.Info args w2) Level.info (fmt.Sprint args) (w.heap h0.Entry.Data).get ∧
     (w2.heap h0.Entry.Data).get "x" = none) ∧
    EmitsOne w2 (h1.Info args w2) Level.info (fmt.Sprint args)
      (fun k => if k = "x" then some (Value.str "1") else (w.heap h0.Entry.Data).get k) ∧
    EmitsOne w2 (h2.Info args w2) Level.info (fmt.Sprint args)
      (fun k => if k = "x" then some (Value.str "2") else (w.heap h0.Entry.Data).get k) ∧
    (h1.Entry.Data ≠ h0.Entry.Data ∧ w1.heap h0.Entry.Data = w.heap h0.Entry.Data) ∧
    ((h0.WithFields fields w).1.Entry.Data ≠ h0.Entry.Data ∧
      (h0.WithFields fields w).2.heap h0.Entry.Data = w.heap h0.Entry.Data) ∧
    ((h0.WithError err w).1.Entry.Data ≠ h0.Entry.Data ∧
      (h0.WithError err w).2.heap h0.Entry.Data = w.heap h0.Entry.Data) := by
  obtain ⟨a1, a2, _, a4, a5⟩ := entryCtx_WithField_effect h0 "x" (Value.str "1") w he
  rw [e1] at a1 a2 a4 a5
  simp only at a1 a2 a4 a5
  obtain ⟨b1, _, _, b4, b5⟩ :=
    entryCtx_WithField_effect h0 "x" (Value.str "2") w1 (by rw [a2]; omega)
  rw [e2] at b1 b4 b5
  simp only at b1 b4 b5
  rw [a2] at b1 b4 b5
  have keep0 : w2.heap h0.Entry.Data = w.heap h0.Entry.Data := by
    rw [b4 _ (by omega), a4 _ he]
  have keep1 : w2.heap h1.Entry.Data = w1.heap (w.next + 1) := by
    rw [a1, b4 _ (by omega)]
  obtain ⟨c1, _, _, c4, _⟩ := Entry_WithFields_effect h0.Entry fields w he hf
  obtain ⟨d1, _, _, d4, _⟩ :=
    entryCtx_WithField_effect h0 logrus.ErrorKey (Value.error err) w he
  refine ⟨⟨?_, ?_⟩, ?_, ?_, ⟨?_, ?_⟩, ⟨?_, ?_⟩, ⟨?_, ?_⟩⟩
  · have h := EmitsOne_log h0.Entry Level.info (fmt.Sprint args) w2
    rw [keep0] at h
    exact h
  · rw [keep0]
    exact hx
  · obtain ⟨r, r1, r2, r3, r4⟩ := EmitsOne_log h1.Entry Level.info (fmt.Sprint args) w2
    exact ⟨r, r1, r2, r3, fun k => by rw [r4 k, keep1, a5 k]⟩
  · obtain ⟨r, r1, r2, r3, r4⟩ := EmitsOne_log h2.Entry Level.info (fmt.Sprint args) w2
    refine ⟨r, r1, r2, r3, fun k => ?_⟩
    rw [r4 k, b1, b5 k, a4 _ he]
  · rw [a1]
    omega
  · exact a4 _ he
  · have : (h0.WithFields fields w).1.Entry.Data = w.next := c1
    rw [this]
    omega
  · exact c4 _ (Nat.ne_of_lt he)
  · have : (h0.WithError err w).1.Entry.Data = w.next + 1 := d1
    rw [this]
    omega
  · exact d4 _ he

/-- C7, instance: the handle `WithField("y", "0")`. -/
theorem handle_immutability_witness :
    (Handle.h0.1.Entry.Data < Handle.h0.2.next ∧ Allocated Handle.h0.2 none ∧
     (Handle.h0.2.heap Handle.h0.1.Entry.Data).get "x" = none) ∧
    EmitsOne
      (Handle.h0.1.WithField "x" (Value.str "2")
        (Handle.h0.1.WithField "x" (Value.str "1") Handle.h0.2).2).2
      ((Handle.h0.1.WithField "x" (Value.str "1") Handle.h0.2).1.Info [Value.str "m"]
        (Handle.h0.1.WithField "x" (Value.str "2")
          (Handle.h0.1.WithField "x" (Value.str "1") Handle.h0.2).2).2)
      Level.info (fmt.Sprint [Value.str "m"])
      (fun k => if k = "x" then some (Value.str "1")
        else (Handle.h0.2.heap Handle.h0.1.Entry.Data).get k) :=
  ⟨⟨by decide, by decide, by decide⟩,
    (handle_immutability Handle.h0.1
      (Handle.h0.1.WithField "x" (Value.str "1") Handle.h0.2).1
      (Handle.h0.1.WithField "x" (Value.str "2")
        (Handle.h0.1.WithField "x" (Value.str "1") Handle.h0.2).2).1
      Handle.h0.2
      (Handle.h0.1.WithField "x" (Value.str "1") Handle.h0.2).2
      (Handle.h0.1.WithField "x" (Value.str "2")
        (Handle.h0.1.WithField "x" (Value.str "1") Handle.h0.2).2).2
      [Value.str "m"] none ⟨"err"⟩ (by decide) (by decide) (by decide) rfl rfl).2.1⟩

/-- The only map `CtxWithFields` writes is the one the result refers to: any other
allocated map keeps its contents, and nothing is deallocated. -/
theorem CtxWithFields_frame (ctx : Context) (fields : Option Nat) (w : World) :
    w.next ≤ (CtxWithFields ctx fields w).2.next ∧
    ∀ a, a < w.next → ctxFields ctx ≠ some a →
      (CtxWithFields ctx fields w).2.heap a = w.heap a := by
  cases h : ctxFields ctx with
  | none =>
    have h1 : (ctx.Value Key.fieldsCtxKey).assertFields = none := h
    constructor
    · simp [CtxWithFields, h1, World.rangeAssign_next, World.make]
    · intro a ha _
      have hne : a ≠ w.next := Nat.ne_of_lt ha
      have hne1 : a ≠ w.make.1 := hne
      simp only [CtxWithFields, h1]
      rw [World.rangeAssign_heap_ne _ _ _ a hne1]
      simp [World.make, hne]
  | some r =>
    have h1 : (ctx.Value Key.fieldsCtxKey).assertFields = some r := h
    constructor
    · simp [CtxWithFields, h1, World.rangeAssign_next]
    · intro a _ hne
      have hne1 : a ≠ r := fun e => hne (by rw [e])
      simp only [CtxWithFields, h1]
      rw [World.rangeAssign_heap_ne _ _ _ a hne1]

/-- C8. Last write wins along a chain. Context chain: the mapping read from
`CtxWithField(CtxWithField(ctx, k, v1), k, v2)` has `k = v2` and equals the mapping
read from `CtxWithField(ctx, k, v2)`. Handle chain: the field set of
`h.WithField(k, v1).WithField(k, v2)` has `k = v2` and equals that of
`h.WithField(k, v2)`. In general, attaching the map `A` and then the map `B` to a
context yields the same mapping as attaching one map `AB` whose contents are `A`
overlaid by `B` (the caller's maps being allocated, and `B` not being the
context's own map). -/
theorem last_write_wins (ctx : Context) (h : entryCtx) (k : String) (v1 v2 : Value)
    (A B AB : Option Nat) (w : World)
    (he : h.Entry.Data < w.next)
    (hA : Allocated w A) (hB : Allocated w B) (hAB : Allocated w AB)
    (hsep : ∀ a, B = some a → ctxFields ctx ≠ some a)
    (hov : ∀ key, (w.load AB).get key = overlayAt (w.load A) (w.load B) key) :
    ((readFields (CtxWithField (CtxWithField ctx k v1 w).1 k v2 (CtxWithField ctx k v1 w).2).1
        (CtxWithField (CtxWithField ctx k v1 w).1 k v2 (CtxWithField ctx k v1 w).2).2).get k =
        some v2 ∧
      ∀ key,
        (readFields (CtxWithField (CtxWithField ctx k v1 w).1 k v2 (CtxWithField ctx k v1 w).2).1
          (CtxWithField (CtxWithField ctx k v1 w).1 k v2 (CtxWithField ctx k v1 w).2).2).get key =
        (readFields (CtxWithField ctx k v2 w).1 (CtxWithField ctx k v2 w).2).get key) ∧
    (((((h.WithField k v1 w).1.WithField k v2 (h.WithField k v1 w).2).2.heap
        ((h.WithField k v1 w).1.WithField k v2 (h.WithField k v1 w).2).1.Entry.Data).get k =
        some v2) ∧
      ∀ key,
        (((h.WithField k v1 w).1.WithField k v2 (h.WithField k v1 w).2).2.heap
          ((h.WithField k v1 w).1.WithField k v2 (h.WithField k v1 w).2).1.Entry.Data).get key =
        ((h.WithField k v2 w).2.heap (h.WithField k v2 w).1.Entry.Data).get key) ∧
    ∀ key,
      (readFields (CtxWithFields (CtxWithFields ctx A w).1 B (CtxWithFields ctx A w).2).1
        (CtxWithFields (CtxWithFields ctx A w).1 B (CtxWithFields ctx A w).2).2).get key =
      (readFields (CtxWithFields ctx AB w).1 (CtxWithFields ctx AB w).2).get key := by
  have ctxChain : ∀ key,
      (readFields (CtxWithField (CtxWithField ctx k v1 w).1 k v2 (CtxWithField ctx k v1 w).2).1
        (CtxWithField (CtxWithField ctx k v1 w).1 k v2 (CtxWithField ctx k v1 w).2).2).get key =
      (readFields (CtxWithField ctx k v2 w).1 (CtxWithField ctx k v2 w).2).get key := by
    intro key
    rw [readFields_CtxWithField, readFields_CtxWithField, readFields_CtxWithField]
    by_cases hk : key = k <;> simp [hk]
  obtain ⟨a1, a2, _, a4, a5⟩ := entryCtx_WithField_effect h k v1 w he
  obtain ⟨b1, _, _, _, b5⟩ :=
    entryCtx_WithField_effect (h.WithField k v1 w).1 k v2 (h.WithField k v1 w).2
      (by rw [a1, a2]; omega)
  obtain ⟨c1, _, _, _, c5⟩ := entryCtx_WithField_effect h k v2 w he
  have handleChain : ∀ key,
      (((h.WithField k v1 w).1.WithField k v2 (h.WithField k v1 w).2).2.heap
        ((h.WithField k v1 w).1.WithField k v2 (h.WithField k v1 w).2).1.Entry.Data).get key =
      ((h.WithField k v2 w).2.heap (h.WithField k v2 w).1.Entry.Data).get key := by
    intro key
    rw [b1, b5 key, c1, c5 key, a1, a5 key]
    by_cases hk : key = k <;> simp [hk]
  refine ⟨⟨?_, ctxChain⟩, ⟨?_, handleChain⟩, ?_⟩
  · rw [readFields_CtxWithField]
    simp
  · rw [b1, b5 k]
    simp
  · intro key
    obtain ⟨f1, f2⟩ := CtxWithFields_frame ctx A w
    have hB1 : Allocated (CtxWithFields ctx A w).2 B := by
      intro a ha
      have := hB a ha
      omega
    have hloadB : (CtxWithFields ctx A w).2.load B = w.load B := by
      cases hb : B with
      | none => rfl
      | some a =>
        simp only [World.load_some]
        exact f2 a (hB a hb) (hsep a hb)
    rw [readFields_CtxWithFields _ B _ hB1 key, hloadB,
      readFields_CtxWithFields ctx AB w hAB key]
    have e1 := readFields_CtxWithFields ctx A w hA key
    unfold overlayAt at e1 ⊢
    rw [hov key, e1]
    unfold overlayAt
    cases (w.load B).get key <;> cases (w.load A).get key <;> simp

/-- C8, instance: a context carrying `a = 1`, the handle `WithField("y", "0")`, and
the maps `{a: 2, b: 3}`, `{a: 4}` and `{a: 4, b: 3}`. -/
theorem last_write_wins_witness :
    (Handle.h0.1.Entry.Data < Attach.both.2.next ∧
      Allocated Attach.both.2 (some Attach.lit.1) ∧
      Allocated Attach.both.2 (some Attach.lit2.1) ∧
      Allocated Attach.both.2 (some Attach.both.1)) ∧
    ∀ key,
      (readFields
        (CtxWithFields (CtxWithFields Attach.ctx.1 (some Attach.lit.1) Attach.both.2).1
          (some Attach.lit2.1)
          (CtxWithFields Attach.ctx.1 (some Attach.lit.1) Attach.both.2).2).1
        (CtxWithFields (CtxWithFields Attach.ctx.1 (some Attach.lit.1) Attach.both.2).1
          (some Attach.lit2.1)
          (CtxWithFields Attach.ctx.1 (some Attach.lit.1) Attach.both.2).2).2).get key =
      (readFields (CtxWithFields Attach.ctx.1 (some Attach.both.1) Attach.both.2).1
        (CtxWithFields Attach.ctx.1 (some Attach.both.1) Attach.both.2).2).get key := by
  have hov : ∀ key, (Attach.both.2.load (some Attach.both.1)).get key =
      overlayAt (Attach.both.2.load (some Attach.lit.1))
        (Attach.both.2.load (some Attach.lit2.1)) key := by
    intro key
    have e1 : (Attach.both.2.load (some Attach.both.1)).entries =
        [("a", Value.str "4"), ("b", Value.str "3")] := by decide
    have e2 : (Attach.both.2.load (some Attach.lit.1)).entries =
        [("a", Value.str "2"), ("b", Value.str "3")] := by decide
    have e3 : (Attach.both.2.load (some Attach.lit2.1)).entries = [("a", Value.str "4")] := by
      decide
    simp only [overlayAt, Fields.get, e1, e2, e3, lookupEntry]
    by_cases ha : "a" = key
    · simp [ha]
    · simp [ha]
  exact ⟨⟨by decide, by decide, by decide, by decide⟩,
    (last_write_wins Attach.ctx.1 Handle.h0.1 "a" (Value.str "1") (Value.str "2")
      (some Attach.lit.1) (some Attach.lit2.1) (some Attach.both.1) Attach.both.2
      (by decide) (by decide) (by decide) (by decide)
      (by intro a ha; cases ha; decide) hov).2.2⟩

/-- C1, the defect at a concrete input. The parent `ctx0` carries a mapping; `ctx1`
is derived with `a = 1` and reads `a = 1`; once the sibling `ctx2` is derived from
the same `ctx0` with `a = 2`, both `ctx1` and `ctx2` read `a = 2`: the two children
refer to the parent's one map, which `CtxWithField` writes in place. -/
theorem siblings_observe_each_other :
    (readFields Siblings.ctx1.1 Siblings.ctx1.2).get "a" = some (Value.str "1") ∧
    (readFields Siblings.ctx2.1 Siblings.ctx2.2).get "a" = some (Value.str "2") ∧
    (readFields Siblings.ctx1.1 Siblings.ctx2.2).get "a" = some (Value.str "2") ∧
    ctxFields Siblings.ctx1.1 = ctxFields Siblings.ctx2.1 ∧
    ctxFields Siblings.ctx1.1 = ctxFields Siblings.ctx0.1 := by
  decide

/-- C2, the defect at a concrete input. The parent carries `k1 = v1` and no `k2`,
`k3`; after `CtxWithField(ctx, "k2", "v2")` the mapping read from the parent itself
has `k2 = v2`, and after `CtxWithFields(ctx, {k3: v3})` it has `k3 = v3` as well. -/
theorem parent_observes_child_attachments :
    ((readFields Parent.ctx.1 Parent.ctx.2).get "k2" = none ∧
      (readFields Parent.ctx.1 Parent.child.2).get "k2" = some (Value.str "v2")) ∧
    ((readFields Parent.ctx.1 Parent.lit.2).get "k3" = none ∧
      (readFields Parent.ctx.1 Parent.child2.2).get "k3" = some (Value.str "v3")) := by
  decide

/-- C10, the defect at a concrete input. The context carries `k = v`, and `InfoC`
writes a record with `k = v`; the handle `FromCtx(ctx)` has no `k` (its field set is
empty), and `FromCtx(ctx).Info` writes a record without `k`: the assertion to
`logrus.Fields` does not accept the stored `Fields` value. -/
theorem FromCtx_drops_context_fields :
    (readFields Lost.ctx.1 Lost.ctx.2).get "k" = some (Value.str "v") ∧
    (InfoC Lost.ctx.1 [Value.str "m"] Lost.ctx.2).out.map (fun r => r.fields.get "k") =
      [some (Value.str "v")] ∧
    (Lost.h.2.heap Lost.h.1.Entry.Data).get "k" = none ∧
    (Lost.h.2.heap Lost.h.1.Entry.Data).entries = [] ∧
    (Lost.h.1.Info [Value.str "m"] Lost.h.2).out.map (fun r => r.fields.get "k") = [none] := by
  decide

end Log
